import Mathlib

/-!
Verification of the fermyon/spin-fileserver example HTTP handler and of the
cooperative scheduler (PollLoop) with its Stream/Sink wrappers described by
the repository's design document.

The request handler is embedded from `src/examples/python/app.py`.  The
PollLoop / Stream / Sink module itself (`poll_loop`) is imported by the
example but its source is not part of the checked tree, so those components
are modelled from the specification text, as marked on each definition.
-/

namespace SpinFileserver

/-! ## Request handler (from `src/examples/python/app.py`) -/

/-- HTTP method, mirroring the `proxy.imports.types` method variants used by
`app.py` (`MethodGet`, `MethodPost`, other variants collapsed into one
carrier since the handler only tests `isinstance(method, MethodGet)`). -/
inductive Method where
  | get
  | post
  | other (name : String)
deriving DecidableEq, Repr

/-- `isinstance(method, MethodGet)` from `app.py`. -/
def Method.isGet : Method → Bool
  | .get => true
  | _ => false

/-- One observable effect performed by `handle_async` on the host API:
setting the response out-param, sending bytes through the response-body
Sink, closing the Sink, finishing an outgoing body, or delegating the
request unchanged to the spin-fileserver component's incoming handler. -/
inductive Effect where
  | setResponse (status : Nat) (headers : List (String × String))
  | sinkSend (bytes : String)
  | sinkClose
  | bodyFinish
  | delegateToFileserver
deriving DecidableEq, Repr

/-- Embedding of `handle_async` from `src/examples/python/app.py`
(lines 22-43): the sequence of host-visible effects it performs, as a
function of the request's method and `path_with_query` (an optional
string in the host API; `None` compares unequal to `"/hello"`). -/
def handle_async (method : Method) (path : Option String) : List Effect :=
  if method.isGet ∧ path = some "/hello" then
    [Effect.setResponse 200 [("content-type", "text/plain")],
     Effect.sinkSend "Hello, world!",
     Effect.sinkClose]
  else if method.isGet then
    [Effect.delegateToFileserver]
  else
    [Effect.setResponse 400 [], Effect.bodyFinish]

/-! ## Sink (spec 4.3): modelled from the spec, since `poll_loop` is not in
the checked tree. -/

/-- Modelled from the spec: outcome of one host `non_blocking_write`
attempt (spec 6): the host accepts some number of bytes, reports
would-block together with a pollable handle, or reports a write error. -/
inductive WriteAttempt where
  | ready (accepted : Nat)
  | wouldBlock (pollable : Nat)
  | error (cause : Nat)
deriving DecidableEq, Repr

/-- `true` exactly on a would-block write response. -/
def WriteAttempt.isWouldBlock : WriteAttempt → Bool
  | .wouldBlock _ => true
  | _ => false

/-- Modelled from the spec: the `Sink.send` retry loop (spec 4.3, missing
`poll_loop` module).  `remaining` is the unsent suffix of the buffer; the
host script gives the outcome of each successive write attempt.  On
`ready k` the host accepted the next `k` bytes; the Sink advances its
offset and retries for the remainder.  On would-block it suspends and
retries on resume (the next script entry).  Returns the bytes accepted
downstream, in order, and whether `send` completed successfully; an
exhausted script with bytes still unsent, or a host write error, is a
failure, never a partial success. -/
def sendLoop : List Nat → List WriteAttempt → List Nat × Bool
  | [], _ => ([], true)
  | _ :: _, [] => ([], false)
  | r :: rs, WriteAttempt.ready k :: rest =>
      (List.take k (r :: rs) ++ (sendLoop (List.drop k (r :: rs)) rest).1,
       (sendLoop (List.drop k (r :: rs)) rest).2)
  | r :: rs, WriteAttempt.wouldBlock _ :: rest => sendLoop (r :: rs) rest
  | _ :: _, WriteAttempt.error _ :: _ => ([], false)

/-- Modelled from the spec: `Sink.send(bytes)` driven against a host
write-attempt script (spec 4.3). -/
def Sink.send (buf : List Nat) (host : List WriteAttempt) : List Nat × Bool :=
  sendLoop buf host

/-! ## Stream (spec 4.2): modelled from the spec. -/

/-- Modelled from the spec: outcome of one host `non_blocking_read`
attempt (spec 6). -/
inductive ReadAttempt where
  | ready (bytes : List Nat)
  | wouldBlock (pollable : Nat)
  | error (cause : Nat)
deriving DecidableEq, Repr

/-- `true` exactly on a would-block read response. -/
def ReadAttempt.isWouldBlock : ReadAttempt → Bool
  | .wouldBlock _ => true
  | _ => false

/-- How a Stream terminates: the distinct end-of-stream terminal value
(an empty successful read), or a host-reported read error. -/
inductive StreamEnd where
  | eos
  | readError (cause : Nat)
deriving DecidableEq, Repr

/-- Modelled from the spec: driving a Stream to exhaustion by repeated
`await next_chunk()` (spec 4.2, missing `poll_loop` module).  Would-block
responses suspend and retry; a non-empty successful read is delivered to
the caller as a chunk; an empty successful read ends the stream with the
distinct `eos` terminal value; a host error ends it with `readError`.
Returns the chunks delivered and the terminal (`none` when the host
script ran out before the stream ended). -/
def readAll : List ReadAttempt → List (List Nat) × Option StreamEnd
  | [] => ([], none)
  | ReadAttempt.ready [] :: _ => ([], some StreamEnd.eos)
  | ReadAttempt.ready (b :: bs) :: rest =>
      ((b :: bs) :: (readAll rest).1, (readAll rest).2)
  | ReadAttempt.wouldBlock _ :: rest => readAll rest
  | ReadAttempt.error c :: _ => ([], some (StreamEnd.readError c))

/-- Modelled from the spec: the bytes the host resource actually had
available: the data of its successful read responses, in order, up to the
stream's end (empty read) or error. -/
def hostAvailable : List ReadAttempt → List Nat
  | [] => []
  | ReadAttempt.ready [] :: _ => []
  | ReadAttempt.ready (b :: bs) :: rest => (b :: bs) ++ hostAvailable rest
  | ReadAttempt.wouldBlock _ :: rest => hostAvailable rest
  | ReadAttempt.error _ :: _ => []

/-! ## PollLoop scheduler (spec 4.1): modelled from the spec. -/

/-- Modelled from the spec: what a suspended frame's operation does when
the frame is resumed and retries it (spec 4.1 step 5, 4.2 step 3, 4.3
step 3): the retried operation completes, blocks again on a fresh
pollable handle, or fails with an application error cause. -/
inductive FrameStep where
  | complete
  | blockAgain (pollable : Nat)
  | failWith (cause : Nat)
deriving DecidableEq, Repr

/-- The application-error cause carried by a frame step, if any. -/
def FrameStep.cause : FrameStep → Option Nat
  | FrameStep.failWith c => some c
  | _ => none

/-- Modelled from the spec: one suspended frame (spec 3 "Task"): its
identity, the pollable handle registered as its wait condition, and the
scripted outcomes of its successive retries. -/
structure Frame where
  fid : Nat
  pollable : Nat
  retries : List FrameStep
deriving DecidableEq, Repr

/-- One scheduler trace event: an invocation of the readiness primitive
(with the submitted pollable list and the returned ready index set), or
the resumption of one suspended frame. -/
inductive Event where
  | pollCall (pollables : List Nat) (readySet : List Nat)
  | resume (fid : Nat) (pollable : Nat)
deriving DecidableEq, Repr

/-- Outcome of `run_until_complete`: the root computation completed, an
application error propagated out unchanged, the host violated the
scheduling contract (fatal), or the host script ran out with frames still
suspended (a model artifact standing for an indefinite block). -/
inductive RunResult where
  | completed
  | appFailure (cause : Nat)
  | schedulingContractViolation
  | outOfFuel
deriving DecidableEq, Repr

/-- The host's ready set violates the scheduling contract: it is empty,
or it names an index outside the submitted pollable list (spec 7). -/
def scvTriggered (ps ready : List Nat) : Bool :=
  ready.isEmpty || ready.any (fun i => ps.length ≤ i)

/-- The entries of `ps` (numbered from `i`) whose index is in the ready
set, in the order they appear in `ps`. -/
def selectedReadyAux : Nat → List Nat → List Nat → List Nat
  | _, [], _ => []
  | i, p :: ps, ready =>
      if i ∈ ready then p :: selectedReadyAux (i + 1) ps ready
      else selectedReadyAux (i + 1) ps ready

/-- The pollables the most recent primitive call reported ready, in the
order they appeared in the submitted list. -/
def selectedReady (ps ready : List Nat) : List Nat :=
  selectedReadyAux 0 ps ready

/-- The suspended frames (numbered from `i`) whose index is in the ready
set, in registration order. -/
def resumedFrames : Nat → List Frame → List Nat → List Frame
  | _, [], _ => []
  | i, f :: fs, ready =>
      if i ∈ ready then f :: resumedFrames (i + 1) fs ready
      else resumedFrames (i + 1) fs ready

/-- Result of one readiness round's resumption phase: the resume events
emitted, the frames left suspended (not ready, original order), the
frames that blocked again (re-registered in resumption order), and the
first application failure raised by a resumed frame, if any. -/
structure RoundOut where
  events : List Event
  kept : List Frame
  reRegistered : List Frame
  failure : Option Nat
deriving DecidableEq, Repr

/-- Modelled from the spec: spec 4.1 step 5 — for every suspended frame
whose index is in the ready set, resume it (in the order its pollable
appeared in the submitted list) by retrying its operation; frames not
reported ready stay suspended. -/
def resumeRound : Nat → List Frame → List Nat → RoundOut
  | _, [], _ => ⟨[], [], [], none⟩
  | i, f :: fs, ready =>
      let rest := resumeRound (i + 1) fs ready
      if i ∈ ready then
        match f.retries with
        | FrameStep.blockAgain p :: more =>
            ⟨Event.resume f.fid f.pollable :: rest.events, rest.kept,
              ⟨f.fid, p, more⟩ :: rest.reRegistered, rest.failure⟩
        | FrameStep.failWith c :: _ =>
            ⟨Event.resume f.fid f.pollable :: rest.events, rest.kept,
              rest.reRegistered, some c⟩
        | _ =>
            ⟨Event.resume f.fid f.pollable :: rest.events, rest.kept,
              rest.reRegistered, rest.failure⟩
      else
        ⟨rest.events, f :: rest.kept, rest.reRegistered, rest.failure⟩

/-- Modelled from the spec: `run_until_complete` (spec 4.1, missing
`poll_loop` module).  While suspended frames remain: collect their
pollables in registration order, invoke the readiness primitive (one host
script entry per call); an empty or out-of-range ready set is a fatal
`SchedulingContractViolation`; otherwise resume every ready frame before
polling again, propagating the first application failure unchanged.
Returns the outcome together with the scheduler trace. -/
def run_until_complete (frames : List Frame) (script : List (List Nat)) :
    RunResult × List Event :=
  match frames, script with
  | [], _ => (RunResult.completed, [])
  | _ :: _, [] => (RunResult.outOfFuel, [])
  | f :: fs, ready :: rest =>
      let ps := (f :: fs).map Frame.pollable
      if scvTriggered ps ready then
        (RunResult.schedulingContractViolation, [Event.pollCall ps ready])
      else
        let round := resumeRound 0 (f :: fs) ready
        match round.failure with
        | some c => (RunResult.appFailure c, Event.pollCall ps ready :: round.events)
        | none =>
            ((run_until_complete (round.kept ++ round.reRegistered) rest).1,
             Event.pollCall ps ready :: round.events
               ++ (run_until_complete (round.kept ++ round.reRegistered) rest).2)
termination_by structural script

/-- Trace well-formedness checker for C3: every readiness-primitive call
submits a non-empty pollable list, and every resumption's pollable is
among the pollables reported ready by the most recent call.  The first
argument is the set of pollables currently allowed to resume. -/
def checkResumes : List Nat → List Event → Bool
  | _, [] => true
  | _, Event.pollCall ps ready :: rest =>
      !ps.isEmpty && checkResumes (selectedReady ps ready) rest
  | allowed, Event.resume _ p :: rest =>
      decide (p ∈ allowed) && checkResumes allowed rest

/-- Trace checker for C5: after each well-formed readiness-primitive
call, the frames reported ready are all resumed, in the order their
pollables appeared in the submitted list, before the next call (or the
end of the trace); a contract-violating call ends the trace.  The first
argument lists the resumptions still owed for the current round. -/
def roundsCheck : List Nat → List Event → Bool
  | pending, [] => pending.isEmpty
  | pending, Event.pollCall ps ready :: rest =>
      pending.isEmpty &&
        (if scvTriggered ps ready then rest.isEmpty
         else roundsCheck (selectedReady ps ready) rest)
  | p :: pending, Event.resume _ q :: rest =>
      decide (p = q) && roundsCheck pending rest
  | [], Event.resume _ _ :: _ => false

/-- The application-error causes a frame's retry script can raise. -/
def frameCauses (f : Frame) : List Nat :=
  f.retries.filterMap FrameStep.cause

/-- All application-error causes the suspended frames can raise. -/
def allCauses (frames : List Frame) : List Nat :=
  (frames.map frameCauses).flatten

/-! ## Stream/Sink close discipline (spec 4.2, 4.3, 5): modelled from the
spec. -/

/-- Modelled from the spec: the state a Stream keeps about its host
resource handle: whether it was explicitly closed, and how many
`non_blocking_read` calls have been made on the handle (instrumentation
for "the handle is not read from again after close"). -/
structure StreamState where
  closed : Bool
  hostReads : Nat
deriving DecidableEq, Repr

/-- Stream-side errors: misuse after close, or a host read error. -/
inductive StreamErr where
  | streamClosed
  | readError (cause : Nat)
deriving DecidableEq, Repr

/-- Sink-side errors: misuse after close, or a host write error. -/
inductive SinkErr where
  | sinkClosed
  | writeError (cause : Nat)
deriving DecidableEq, Repr

/-- Modelled from the spec: the state a Sink keeps: whether its response
body was explicitly finalized. -/
structure SinkState where
  closed : Bool
deriving DecidableEq, Repr

/-- One read against the host script, counting host read attempts:
skips would-block responses (suspend/retry), returns the first data or
error response; `none` if the script ran out. -/
def readGo : Nat → List ReadAttempt → Option (Except StreamErr (List Nat)) × Nat
  | n, [] => (none, n)
  | n, ReadAttempt.ready bs :: _ => (some (Except.ok bs), n + 1)
  | n, ReadAttempt.wouldBlock _ :: rest => readGo (n + 1) rest
  | n, ReadAttempt.error c :: _ =>
      (some (Except.error (StreamErr.readError c)), n + 1)

/-- Modelled from the spec: `Stream.read` (spec 4.2): on a closed stream
it fails with `StreamClosed` without touching the host handle; otherwise
it drives `readGo` against the host script. -/
def Stream.read (s : StreamState) (host : List ReadAttempt) :
    Option (Except StreamErr (List Nat)) × StreamState :=
  if s.closed then (some (Except.error StreamErr.streamClosed), s)
  else
    ((readGo s.hostReads host).1, ⟨false, (readGo s.hostReads host).2⟩)

/-- Modelled from the spec: `Stream.close` (spec 4.2): releases the host
resource handle; closing an already-closed stream fails with
`StreamClosed`. -/
def Stream.close (s : StreamState) : Except StreamErr StreamState :=
  if s.closed then Except.error StreamErr.streamClosed
  else Except.ok ⟨true, s.hostReads⟩

/-- Modelled from the spec: `Sink.close` (spec 4.3): finalizes the
underlying response body; a double close fails with `SinkClosed`. -/
def Sink.close (k : SinkState) : Except SinkErr SinkState :=
  if k.closed then Except.error SinkErr.sinkClosed
  else Except.ok ⟨true⟩

end SpinFileserver

namespace SpinFileserver

/-! ## Theorems about the request handler -/

/-- C7: for every incoming request whose method is not GET and whose path
is not `"/hello"`, the handler's fallback branch returns a fixed 400
response (status 400, no headers, body finished with no bytes sent). -/
theorem handler_fallback_400 (method : Method) (path : Option String)
    (hm : method.isGet = false) (_hp : path ≠ some "/hello") :
    handle_async method path = [Effect.setResponse 400 [], Effect.bodyFinish] := by
  unfold handle_async
  rw [if_neg, if_neg]
  · simp [hm]
  · intro h
    exact (by simp [hm] at h : False)

/-- Witness for C7 at a concrete non-GET request. -/
theorem handler_fallback_400_witness :
    handle_async Method.post (some "/other")
      = [Effect.setResponse 400 [], Effect.bodyFinish] :=
  handler_fallback_400 Method.post (some "/other") (by decide) (by decide)

/-- C9: for every incoming request with method GET and path `"/hello"`,
the handler sets a 200 response with the single header
`content-type: text/plain`, sends exactly the bytes `"Hello, world!"`
through the response-body Sink, and then closes the Sink. -/
theorem handler_hello_200 (method : Method) (path : Option String)
    (hm : method.isGet = true) (hp : path = some "/hello") :
    handle_async method path
      = [Effect.setResponse 200 [("content-type", "text/plain")],
         Effect.sinkSend "Hello, world!",
         Effect.sinkClose] := by
  unfold handle_async
  rw [if_pos]
  exact ⟨hm, hp⟩

/-- Witness for C9 at the concrete GET `/hello` request. -/
theorem handler_hello_200_witness :
    handle_async Method.get (some "/hello")
      = [Effect.setResponse 200 [("content-type", "text/plain")],
         Effect.sinkSend "Hello, world!",
         Effect.sinkClose] :=
  handler_hello_200 Method.get (some "/hello") (by decide) rfl

/-- C10: for every incoming request with method GET and a path other than
`"/hello"`, the handler performs no response-setting effect of its own (in
particular no 400) and only delegates the request and response out-param
unchanged to the external fileserver component's incoming handler. -/
theorem handler_get_delegates (method : Method) (path : Option String)
    (hm : method.isGet = true) (hp : path ≠ some "/hello") :
    handle_async method path = [Effect.delegateToFileserver] ∧
      ∀ status headers, Effect.setResponse status headers ∉ handle_async method path := by
  have heq : handle_async method path = [Effect.delegateToFileserver] := by
    unfold handle_async
    rw [if_neg, if_pos hm]
    intro h
    exact hp h.2
  refine ⟨heq, ?_⟩
  intro status headers hmem
  rw [heq] at hmem
  simp at hmem

/-- Witness for C10 at a concrete GET request for a different path. -/
theorem handler_get_delegates_witness :
    handle_async Method.get (some "/static/style.css")
      = [Effect.delegateToFileserver] :=
  (handler_get_delegates Method.get (some "/static/style.css")
    (by decide) (by decide)).1

/-! ## Sink delivery (C1) -/

/-- Helper: the bytes `sendLoop` reports accepted form an initial segment
of the remaining buffer, in order. -/
theorem sendLoop_extends (host : List WriteAttempt) :
    ∀ rem : List Nat, ∃ t, (sendLoop rem host).1 ++ t = rem := by
  induction host with
  | nil =>
      intro rem
      cases rem with
      | nil => exact ⟨[], rfl⟩
      | cons r rs => exact ⟨r :: rs, rfl⟩
  | cons a rest ih =>
      intro rem
      cases rem with
      | nil => exact ⟨[], rfl⟩
      | cons r rs =>
          cases a with
          | ready k =>
              obtain ⟨t, ht⟩ := ih (List.drop k (r :: rs))
              refine ⟨t, ?_⟩
              simp only [sendLoop]
              rw [List.append_assoc, ht, List.take_append_drop]
          | wouldBlock p => simpa [sendLoop] using ih (r :: rs)
          | error c => exact ⟨r :: rs, rfl⟩

/-- Helper: when `sendLoop` reports success, the whole remaining buffer
was accepted. -/
theorem sendLoop_true (host : List WriteAttempt) :
    ∀ rem : List Nat, (sendLoop rem host).2 = true → (sendLoop rem host).1 = rem := by
  induction host with
  | nil =>
      intro rem h
      cases rem with
      | nil => rfl
      | cons r rs => simp [sendLoop] at h
  | cons a rest ih =>
      intro rem h
      cases rem with
      | nil => rfl
      | cons r rs =>
          cases a with
          | ready k =>
              simp only [sendLoop] at h ⊢
              rw [ih _ h, List.take_append_drop]
          | wouldBlock p =>
              simpa [sendLoop] using ih (r :: rs) (by simpa [sendLoop] using h)
          | error c => simp [sendLoop] at h

/-- Helper: when `sendLoop` reports failure, strictly fewer bytes than
the remaining buffer were accepted. -/
theorem sendLoop_false_lt (host : List WriteAttempt) :
    ∀ rem : List Nat, (sendLoop rem host).2 = false →
      (sendLoop rem host).1.length < rem.length := by
  induction host with
  | nil =>
      intro rem h
      cases rem with
      | nil => simp [sendLoop] at h
      | cons r rs => simp [sendLoop]
  | cons a rest ih =>
      intro rem h
      cases rem with
      | nil => simp [sendLoop] at h
      | cons r rs =>
          cases a with
          | ready k =>
              simp only [sendLoop, List.length_append] at h ⊢
              have hlt := ih _ h
              have hsplit : (List.take k (r :: rs)).length
                  + (List.drop k (r :: rs)).length = (r :: rs).length := by
                rw [← List.length_append, List.take_append_drop]
              omega
          | wouldBlock p =>
              simpa [sendLoop] using ih (r :: rs) (by simpa [sendLoop] using h)
          | error c => simp [sendLoop]

/-- C1: `Sink.send` delivers an initial segment of the buffer in original
order, and completes successfully exactly when every byte of the buffer
has been accepted by the host across the partial-write attempts; no
partial success is ever reported to the caller. -/
theorem sink_send_all_or_nothing (buf : List Nat) (host : List WriteAttempt) :
    (∃ t, (Sink.send buf host).1 ++ t = buf) ∧
    ((Sink.send buf host).2 = true ↔ (Sink.send buf host).1 = buf) := by
  refine ⟨sendLoop_extends host buf, ?_, ?_⟩
  · exact sendLoop_true host buf
  · intro h1
    cases hb : (Sink.send buf host).2 with
    | true => rfl
    | false =>
        have hlt := sendLoop_false_lt host buf hb
        rw [show sendLoop buf host = Sink.send buf host from rfl, h1] at hlt
        exact absurd hlt (lt_irrefl _)

/-- Witness for C1: a three-byte buffer accepted as 2 + 1 bytes around a
would-block is delivered whole. -/
theorem sink_send_all_or_nothing_witness :
    (Sink.send [1, 2, 3]
      [WriteAttempt.ready 2, WriteAttempt.wouldBlock 9, WriteAttempt.ready 1]).1
      = [1, 2, 3] :=
  (sink_send_all_or_nothing [1, 2, 3]
    [WriteAttempt.ready 2, WriteAttempt.wouldBlock 9, WriteAttempt.ready 1]).2.mp
    (by decide)

/-! ## Stream delivery (C2) -/

/-- Helper: the chunks a Stream delivers concatenate to exactly the bytes
the host had available. -/
theorem readAll_flatten (host : List ReadAttempt) :
    (readAll host).1.flatten = hostAvailable host := by
  induction host with
  | nil => rfl
  | cons a rest ih =>
      cases a with
      | ready bs =>
          cases bs with
          | nil => rfl
          | cons b bs2 => simp [readAll, hostAvailable, ih]
      | wouldBlock p => simpa [readAll, hostAvailable] using ih
      | error c => rfl

/-- Helper: a Stream never delivers an empty chunk as data; emptiness is
reserved for the end-of-stream terminal. -/
theorem readAll_chunks_nonempty (host : List ReadAttempt) :
    ∀ chunk ∈ (readAll host).1, chunk ≠ [] := by
  induction host with
  | nil => intro c hc; simp [readAll] at hc
  | cons a rest ih =>
      intro c hc
      cases a with
      | ready bs =>
          cases bs with
          | nil => simp [readAll] at hc
          | cons b bs2 =>
              simp only [readAll, List.mem_cons] at hc
              cases hc with
              | inl h => subst h; simp
              | inr h => exact ih c h
      | wouldBlock p => exact ih c (by simpa [readAll] using hc)
      | error c2 => simp [readAll] at hc

/-- C2: across any interleaving of would-block responses and data, the
chunks delivered to the caller concatenate to exactly the bytes the host
had available, in order, with no duplication and no loss; an empty
successful read is delivered as the distinct end-of-stream terminal
value, never as an error and never as a data chunk. -/
theorem stream_retry_delivers_exact (host : List ReadAttempt) :
    (readAll host).1.flatten = hostAvailable host ∧
    (∀ chunk ∈ (readAll host).1, chunk ≠ []) ∧
    (∀ rest, readAll (ReadAttempt.ready [] :: rest) = ([], some StreamEnd.eos)) ∧
    (∀ c, StreamEnd.eos ≠ StreamEnd.readError c) := by
  refine ⟨readAll_flatten host, readAll_chunks_nonempty host, ?_, ?_⟩
  · intro rest; rfl
  · intro c h; exact StreamEnd.noConfusion h

/-- Witness for C2: a two-chunk stream with interleaved would-blocks. -/
theorem stream_retry_delivers_exact_witness :
    (readAll [ReadAttempt.wouldBlock 1, ReadAttempt.ready [5],
      ReadAttempt.wouldBlock 2, ReadAttempt.ready [6, 7],
      ReadAttempt.ready []]).1.flatten
      = hostAvailable [ReadAttempt.wouldBlock 1, ReadAttempt.ready [5],
          ReadAttempt.wouldBlock 2, ReadAttempt.ready [6, 7],
          ReadAttempt.ready []] ∧
    ([5] : List Nat) ≠ [] :=
  ⟨(stream_retry_delivers_exact [ReadAttempt.wouldBlock 1, ReadAttempt.ready [5],
      ReadAttempt.wouldBlock 2, ReadAttempt.ready [6, 7],
      ReadAttempt.ready []]).1,
   (stream_retry_delivers_exact [ReadAttempt.wouldBlock 1, ReadAttempt.ready [5],
      ReadAttempt.wouldBlock 2, ReadAttempt.ready [6, 7],
      ReadAttempt.ready []]).2.1 [5] (by decide)⟩

/-! ## Close discipline (C8) -/

/-- C8: after a Stream is explicitly closed, a read fails with
`StreamClosed` without the host handle being read from again (the read
counter is unchanged) and a second close fails with `StreamClosed`;
after a Sink is closed, a second close fails with `SinkClosed`. -/
theorem close_discipline (s0 : StreamState) (k0 : SinkState)
    (host : List ReadAttempt)
    (hs : s0.closed = false) (hk : k0.closed = false) :
    ∃ s k, Stream.close s0 = Except.ok s ∧ Sink.close k0 = Except.ok k ∧
      Stream.read s host = (some (Except.error StreamErr.streamClosed), s) ∧
      (Stream.read s host).2.hostReads = s.hostReads ∧
      Stream.close s = Except.error StreamErr.streamClosed ∧
      Sink.close k = Except.error SinkErr.sinkClosed := by
  refine ⟨⟨true, s0.hostReads⟩, ⟨true⟩, ?_, ?_, ?_, ?_, ?_, ?_⟩
  · simp [Stream.close, hs]
  · simp [Sink.close, hk]
  · simp [Stream.read]
  · simp [Stream.read]
  · simp [Stream.close]
  · simp [Sink.close]

/-! ## Scheduler round structure -/

/-- Helper: the resume events of one round are exactly one per frame
reported ready, in registration order. -/
theorem resumeRound_events (ready : List Nat) :
    ∀ (fs : List Frame) (i : Nat),
      (resumeRound i fs ready).events
        = (resumedFrames i fs ready).map (fun f => Event.resume f.fid f.pollable) := by
  intro fs
  induction fs with
  | nil => intro i; rfl
  | cons f fs ih =>
      intro i
      simp only [resumeRound, resumedFrames]
      by_cases hi : i ∈ ready
      · rw [if_pos hi, if_pos hi]
        cases hr : f.retries with
        | nil => simp [ih]
        | cons s more => cases s <;> simp [ih]
      · rw [if_neg hi, if_neg hi]
        exact ih (i + 1)

/-- Helper: the pollables of the frames reported ready are exactly the
ready-selected entries of the submitted pollable list, in order. -/
theorem resumedFrames_pollables (ready : List Nat) :
    ∀ (fs : List Frame) (i : Nat),
      (resumedFrames i fs ready).map Frame.pollable
        = selectedReadyAux i (fs.map Frame.pollable) ready := by
  intro fs
  induction fs with
  | nil => intro i; rfl
  | cons f fs ih =>
      intro i
      simp only [resumedFrames, selectedReadyAux, List.map_cons]
      by_cases hi : i ∈ ready
      · rw [if_pos hi, if_pos hi, List.map_cons, ih]
      · rw [if_neg hi, if_neg hi]
        exact ih (i + 1)

/-- Helper: `checkResumes` accepts a block of resumptions whose pollables
are all allowed, and proceeds unchanged. -/
theorem checkResumes_resumes (allowed : List Nat) :
    ∀ (l : List Frame) (rest : List Event),
      (∀ f ∈ l, f.pollable ∈ allowed) →
      checkResumes allowed
          (l.map (fun f => Event.resume f.fid f.pollable) ++ rest)
        = checkResumes allowed rest := by
  intro l
  induction l with
  | nil => intro rest h; rfl
  | cons f l ih =>
      intro rest h
      simp only [List.map_cons, List.cons_append, List.append_eq, checkResumes]
      rw [ih rest (fun g hg => h g (List.mem_cons_of_mem f hg))]
      simp [h f (List.mem_cons_self f l)]

/-- Helper: `roundsCheck` consumes a round's resumptions exactly when
they match the owed pollables in order. -/
theorem roundsCheck_resumes :
    ∀ (l : List Frame) (rest : List Event),
      roundsCheck (l.map Frame.pollable)
          (l.map (fun f => Event.resume f.fid f.pollable) ++ rest)
        = roundsCheck [] rest := by
  intro l
  induction l with
  | nil => intro rest; rfl
  | cons f l ih =>
      intro rest
      simp only [List.map_cons, List.cons_append, List.append_eq, roundsCheck]
      rw [ih rest]
      simp

/-- Helper: membership in the collected application-error causes. -/
theorem mem_allCauses {c : Nat} {l : List Frame} :
    c ∈ allCauses l ↔ ∃ f ∈ l, c ∈ frameCauses f := by
  simp [allCauses]

/-- Helper: causes of a tail are causes of the whole frame list. -/
theorem allCauses_cons_of_mem {c : Nat} (f : Frame) {fs : List Frame}
    (h : c ∈ allCauses fs) : c ∈ allCauses (f :: fs) := by
  rcases mem_allCauses.mp h with ⟨g, hg, hc⟩
  exact mem_allCauses.mpr ⟨g, List.mem_cons_of_mem f hg, hc⟩

/-- Helper: causes of the head frame are causes of the whole list. -/
theorem allCauses_cons_of_head {c : Nat} {f : Frame} (fs : List Frame)
    (h : c ∈ frameCauses f) : c ∈ allCauses (f :: fs) :=
  mem_allCauses.mpr ⟨f, List.mem_cons_self f fs, h⟩

/-- Helper: frames kept suspended by a round were already suspended. -/
theorem resumeRound_kept_subset (ready : List Nat) :
    ∀ (fs : List Frame) (i : Nat) (g : Frame),
      g ∈ (resumeRound i fs ready).kept → g ∈ fs := by
  intro fs
  induction fs with
  | nil => intro i g h; simp [resumeRound] at h
  | cons f fs ih =>
      intro i g h
      simp only [resumeRound] at h
      by_cases hi : i ∈ ready
      · rw [if_pos hi] at h
        revert h
        cases hr : f.retries with
        | nil => exact fun h => List.mem_cons_of_mem f (ih (i + 1) g h)
        | cons s more =>
            cases s with
            | complete => exact fun h => List.mem_cons_of_mem f (ih (i + 1) g h)
            | blockAgain p => exact fun h => List.mem_cons_of_mem f (ih (i + 1) g h)
            | failWith c0 => exact fun h => List.mem_cons_of_mem f (ih (i + 1) g h)
      · rw [if_neg hi] at h
        rcases List.mem_cons.mp h with h | h
        · exact h ▸ List.mem_cons_self f fs
        · exact List.mem_cons_of_mem f (ih (i + 1) g h)

/-- Helper: a frame re-registered by a round can only raise causes that
one of the round's input frames could already raise. -/
theorem resumeRound_reRegistered_causes (ready : List Nat) :
    ∀ (fs : List Frame) (i : Nat) (g : Frame),
      g ∈ (resumeRound i fs ready).reRegistered →
      ∃ f ∈ fs, frameCauses g = frameCauses f := by
  intro fs
  induction fs with
  | nil => intro i g h; simp [resumeRound] at h
  | cons f fs ih =>
      intro i g h
      have push : ∀ h2 : g ∈ (resumeRound (i + 1) fs ready).reRegistered,
          ∃ f2 ∈ f :: fs, frameCauses g = frameCauses f2 := by
        intro h2
        obtain ⟨f2, hf2, hc⟩ := ih (i + 1) g h2
        exact ⟨f2, List.mem_cons_of_mem f hf2, hc⟩
      simp only [resumeRound] at h
      by_cases hi : i ∈ ready
      · rw [if_pos hi] at h
        revert h
        cases hr : f.retries with
        | nil => exact push
        | cons s more =>
            cases s with
            | complete => exact push
            | blockAgain p =>
                intro h
                rcases List.mem_cons.mp h with h | h
                · refine ⟨f, List.mem_cons_self f fs, ?_⟩
                  subst h
                  simp [frameCauses, hr, List.filterMap_cons, FrameStep.cause]
                · exact push h
            | failWith c0 => exact push
      · rw [if_neg hi] at h
        exact push h

/-- Helper: a round's failure cause comes from one of its frames. -/
theorem resumeRound_failure_cause (ready : List Nat) :
    ∀ (fs : List Frame) (i : Nat) (c : Nat),
      (resumeRound i fs ready).failure = some c → c ∈ allCauses fs := by
  intro fs
  induction fs with
  | nil => intro i c h; simp [resumeRound] at h
  | cons f fs ih =>
      intro i c h
      simp only [resumeRound] at h
      by_cases hi : i ∈ ready
      · rw [if_pos hi] at h
        revert h
        cases hr : f.retries with
        | nil => exact fun h => allCauses_cons_of_mem f (ih (i + 1) c h)
        | cons s more =>
            cases s with
            | complete => exact fun h => allCauses_cons_of_mem f (ih (i + 1) c h)
            | blockAgain p => exact fun h => allCauses_cons_of_mem f (ih (i + 1) c h)
            | failWith c0 =>
                intro h
                have hc : c0 = c := Option.some.inj h
                subst hc
                refine allCauses_cons_of_head fs ?_
                simp [frameCauses, hr, List.filterMap_cons, FrameStep.cause]
      · rw [if_neg hi] at h
        exact allCauses_cons_of_mem f (ih (i + 1) c h)

/-- Helper: an application failure reported by the scheduler is a cause
one of the initial frames could raise, unchanged. -/
theorem run_appFailure_from_frames (script : List (List Nat)) :
    ∀ (frames : List Frame) (c : Nat),
      (run_until_complete frames script).1 = RunResult.appFailure c →
      c ∈ allCauses frames := by
  induction script with
  | nil =>
      intro frames c h
      cases frames with
      | nil => simp [run_until_complete] at h
      | cons f fs => simp [run_until_complete] at h
  | cons ready rest ih =>
      intro frames c h
      cases frames with
      | nil => simp [run_until_complete] at h
      | cons f fs =>
          simp only [run_until_complete, List.map_cons] at h
          cases hscv : scvTriggered (f.pollable :: List.map Frame.pollable fs) ready
          · cases hfail : (resumeRound 0 (f :: fs) ready).failure with
            | some c0 =>
                simp only [hscv, Bool.false_eq_true, if_false, hfail] at h
                have hc : c0 = c := RunResult.appFailure.inj h
                subst hc
                exact resumeRound_failure_cause ready (f :: fs) 0 c0 hfail
            | none =>
                simp only [hscv, Bool.false_eq_true, if_false, hfail] at h
                have hmem := ih _ c h
                rcases mem_allCauses.mp hmem with ⟨g, hg, hc⟩
                rcases List.mem_append.mp hg with hg | hg
                · exact mem_allCauses.mpr
                    ⟨g, resumeRound_kept_subset ready (f :: fs) 0 g hg, hc⟩
                · obtain ⟨f2, hf2, heq⟩ :=
                    resumeRound_reRegistered_causes ready (f :: fs) 0 g hg
                  rw [heq] at hc
                  exact mem_allCauses.mpr ⟨f2, hf2, hc⟩
          · simp [hscv] at h

/-- Helper: would-block read responses have no effect on what a Stream
delivers: filtering them out of the host script changes nothing. -/
theorem readAll_filter_wouldBlock (host : List ReadAttempt) :
    readAll (host.filter (fun a => !a.isWouldBlock)) = readAll host := by
  induction host with
  | nil => rfl
  | cons a rest ih =>
      cases a with
      | ready bs =>
          rw [List.filter_cons_of_pos rfl]
          cases bs with
          | nil => rfl
          | cons b bs2 => simp only [readAll]; rw [ih]
      | wouldBlock p =>
          rw [List.filter_cons_of_neg (by simp [ReadAttempt.isWouldBlock])]
          simp only [readAll]
          exact ih
      | error c =>
          rw [List.filter_cons_of_pos rfl]
          simp [readAll]

/-- Helper: would-block write responses have no effect on what a Sink
delivers or on the success of `send`. -/
theorem sendLoop_filter_wouldBlock (host : List WriteAttempt) :
    ∀ rem : List Nat,
      sendLoop rem (host.filter (fun a => !a.isWouldBlock)) = sendLoop rem host := by
  induction host with
  | nil => intro rem; rfl
  | cons a rest ih =>
      intro rem
      cases rem with
      | nil => simp [sendLoop]
      | cons r rs =>
          cases a with
          | ready k =>
              rw [List.filter_cons_of_pos rfl]
              simp only [sendLoop]
              rw [ih (List.drop k (r :: rs))]
          | wouldBlock p =>
              rw [List.filter_cons_of_neg (by simp [WriteAttempt.isWouldBlock])]
              simp only [sendLoop]
              exact ih (r :: rs)
          | error c =>
              rw [List.filter_cons_of_pos rfl]
              simp [sendLoop]

/-- Witness for C8 at a fresh Stream and Sink. -/
theorem close_discipline_witness :
    ∃ s k, Stream.close ⟨false, 0⟩ = Except.ok s ∧
      Sink.close ⟨false⟩ = Except.ok k ∧
      Stream.read s [ReadAttempt.ready [1]]
        = (some (Except.error StreamErr.streamClosed), s) ∧
      (Stream.read s [ReadAttempt.ready [1]]).2.hostReads = s.hostReads ∧
      Stream.close s = Except.error StreamErr.streamClosed ∧
      Sink.close k = Except.error SinkErr.sinkClosed :=
  close_discipline ⟨false, 0⟩ ⟨false⟩ [ReadAttempt.ready [1]] rfl rfl

/-- C3: in every scheduling round, the readiness primitive is invoked
only with a non-empty pollable list, and a suspended frame is resumed
only if its registered pollable was reported ready by the most recent
invocation of the primitive. -/
theorem polling_discipline (frames : List Frame) (script : List (List Nat)) :
    checkResumes [] (run_until_complete frames script).2 = true := by
  suffices h : ∀ allowed,
      checkResumes allowed (run_until_complete frames script).2 = true by
    exact h []
  induction script generalizing frames with
  | nil => intro allowed; cases frames <;> rfl
  | cons ready rest ih =>
      intro allowed
      cases frames with
      | nil => rfl
      | cons f fs =>
          have hmem : ∀ g ∈ resumedFrames 0 (f :: fs) ready,
              g.pollable
                ∈ selectedReady (f.pollable :: List.map Frame.pollable fs) ready := by
            intro g hg
            have h1 := List.mem_map_of_mem Frame.pollable hg
            rw [resumedFrames_pollables ready (f :: fs) 0] at h1
            simpa [selectedReady] using h1
          simp only [run_until_complete, List.map_cons]
          cases hscv : scvTriggered (f.pollable :: List.map Frame.pollable fs) ready
          · cases hfail : (resumeRound 0 (f :: fs) ready).failure with
            | some c =>
                simp only [hscv, Bool.false_eq_true, if_false, hfail]
                simp only [checkResumes, List.isEmpty_cons, Bool.not_false,
                  Bool.true_and]
                rw [resumeRound_events ready (f :: fs) 0,
                  ← List.append_nil (List.map
                    (fun g => Event.resume g.fid g.pollable)
                    (resumedFrames 0 (f :: fs) ready)),
                  checkResumes_resumes _ _ _ hmem]
                rfl
            | none =>
                simp only [hscv, Bool.false_eq_true, if_false, hfail]
                simp only [checkResumes, List.isEmpty_cons, Bool.not_false,
                  Bool.true_and, List.append_eq]
                rw [resumeRound_events ready (f :: fs) 0,
                  checkResumes_resumes _ _ _ hmem]
                exact ih _ _
          · simp [hscv, checkResumes]

/-- C4: a host that returns an empty ready set for a non-empty pollable
list makes `run_until_complete` fail immediately with the fatal
`SchedulingContractViolation`: the result is that error, unwrapped, and
the trace shows the violating call as its only primitive invocation — no
retry, no further polling, no hang. -/
theorem empty_ready_set_fatal (f : Frame) (fs : List Frame)
    (script : List (List Nat)) :
    run_until_complete (f :: fs) ([] :: script)
      = (RunResult.schedulingContractViolation,
          [Event.pollCall ((f :: fs).map Frame.pollable) []]) := by
  simp [run_until_complete, scvTriggered]

/-- C5: within every readiness round, all suspended frames whose
pollables were reported ready are resumed, in the order their pollables
appeared in the submitted list, before the readiness primitive is called
again. -/
theorem round_resumption_order (frames : List Frame) (script : List (List Nat)) :
    roundsCheck [] (run_until_complete frames script).2 = true := by
  induction script generalizing frames with
  | nil => cases frames <;> rfl
  | cons ready rest ih =>
      cases frames with
      | nil => rfl
      | cons f fs =>
          have hsel : selectedReady (f.pollable :: List.map Frame.pollable fs) ready
              = (resumedFrames 0 (f :: fs) ready).map Frame.pollable := by
            rw [resumedFrames_pollables ready (f :: fs) 0]
            simp [selectedReady]
          simp only [run_until_complete, List.map_cons]
          cases hscv : scvTriggered (f.pollable :: List.map Frame.pollable fs) ready
          · cases hfail : (resumeRound 0 (f :: fs) ready).failure with
            | some c =>
                simp only [hscv, Bool.false_eq_true, if_false, hfail]
                simp only [roundsCheck, List.isEmpty_nil, Bool.true_and, hscv,
                  Bool.false_eq_true, if_false]
                rw [hsel, resumeRound_events ready (f :: fs) 0,
                  ← List.append_nil (List.map
                    (fun g => Event.resume g.fid g.pollable)
                    (resumedFrames 0 (f :: fs) ready)),
                  roundsCheck_resumes _ _]
                rfl
            | none =>
                simp only [hscv, Bool.false_eq_true, if_false, hfail]
                simp only [roundsCheck, List.isEmpty_nil, Bool.true_and, hscv,
                  Bool.false_eq_true, if_false, List.append_eq]
                rw [hsel, resumeRound_events ready (f :: fs) 0,
                  roundsCheck_resumes _ _]
                exact ih _
          · simp [hscv, roundsCheck]

/-- C6: would-block responses are fully absorbed by the Stream/Sink retry
loops — filtering every would-block out of a host script leaves what
application code observes unchanged, so `WouldBlock` is never observable.
Every other error propagates unchanged to the caller of
`run_until_complete`: whenever the loop reaches a state `frames` and a
resumed frame raises cause `c` in the next (non-violating) round, the run
returns exactly `appFailure c` then and there, like a synchronous
failure — the remaining host script is never consumed; and conversely a
surfaced `appFailure` is always an unchanged cause raised by a driven
frame, never invented or rewrapped by the loop. -/
theorem wouldblock_absorbed_errors_propagate (hostRead : List ReadAttempt)
    (hostWrite : List WriteAttempt) (rem : List Nat)
    (frames : List Frame) (script : List (List Nat)) :
    readAll (hostRead.filter (fun a => !a.isWouldBlock)) = readAll hostRead ∧
    Sink.send rem (hostWrite.filter (fun a => !a.isWouldBlock))
      = Sink.send rem hostWrite ∧
    (∀ ready rest c,
      scvTriggered (frames.map Frame.pollable) ready = false →
      (resumeRound 0 frames ready).failure = some c →
      run_until_complete frames (ready :: rest)
        = (RunResult.appFailure c,
           Event.pollCall (frames.map Frame.pollable) ready
             :: (resumeRound 0 frames ready).events)) ∧
    (∀ c, (run_until_complete frames script).1 = RunResult.appFailure c →
      c ∈ allCauses frames) := by
  refine ⟨readAll_filter_wouldBlock hostRead,
    sendLoop_filter_wouldBlock hostWrite rem, ?_,
    fun c h => run_appFailure_from_frames script frames c h⟩
  intro ready rest c hscv hfail
  cases frames with
  | nil => simp [resumeRound] at hfail
  | cons f fs =>
      simp only [List.map_cons] at hscv ⊢
      simp only [run_until_complete, List.map_cons, hscv, Bool.false_eq_true,
        if_false, hfail]

/-- Witness for C6: a frame raising cause 42 in a ready round makes the
run fail with exactly cause 42, an unchanged input cause. -/
theorem wouldblock_absorbed_errors_propagate_witness :
    run_until_complete [⟨0, 7, [FrameStep.failWith 42]⟩] [[0]]
      = (RunResult.appFailure 42,
         [Event.pollCall [7] [0], Event.resume 0 7]) ∧
    (42 : Nat) ∈ allCauses [⟨0, 7, [FrameStep.failWith 42]⟩] :=
  ⟨(wouldblock_absorbed_errors_propagate [] [] []
      [⟨0, 7, [FrameStep.failWith 42]⟩] [[0]]).2.2.1 [0] [] 42
      (by decide) (by decide),
   (wouldblock_absorbed_errors_propagate [] [] []
      [⟨0, 7, [FrameStep.failWith 42]⟩] [[0]]).2.2.2 42 (by decide)⟩

end SpinFileserver
